import Mathlib

/-!
Verification of the ketchup collection pipeline (`src/ketchup`), a
Kubernetes resource collector.  The development shallowly embeds the
relevant Rust code from `src/ketchup/src/k8s.rs`, `src/ketchup/src/main.rs`
and `src/ketchup/src/output.rs`:

* JSON documents (`serde_json::Value`) become the inductive type `Json`,
  with objects as ordered association lists of fields;
* `CollectionOptions` is copied field for field;
* `should_collect_resource`, `sanitize_resource`,
  `collect_dynamic_resource`, `verify_namespaces`, the two collection
  passes, `save_resource_type` and `create_collection_summary` become
  executable Lean functions mirroring the Rust control flow;
* network effects (discovery, list calls) are made explicit: fetch results
  are passed in as functions into `Except`, and the sequence of API calls a
  run performs is modelled by a trace of `ApiCall` values derived from the
  call sites in the source.
-/

namespace Ketchup

/-- Generic JSON document, mirroring `serde_json::Value`.  Objects keep
their fields as an ordered list of key/value pairs. -/
inductive Json where
  | null : Json
  | bool (b : Bool) : Json
  | num (n : Int) : Json
  | str (s : String) : Json
  | arr (elems : List Json) : Json
  | obj (fields : List (String × Json)) : Json

mutual

/-- Structural equality test on `Json` (the nested inductive prevents a
derived instance). -/
def Json.beq : Json → Json → Bool
  | .null, .null => true
  | .bool a, .bool b => a == b
  | .num a, .num b => a == b
  | .str a, .str b => a == b
  | .arr a, .arr b => Json.beqList a b
  | .obj a, .obj b => Json.beqFields a b
  | _, _ => false

/-- Equality test on lists of `Json`. -/
def Json.beqList : List Json → List Json → Bool
  | [], [] => true
  | a :: as, b :: bs => Json.beq a b && Json.beqList as bs
  | _, _ => false

/-- Equality test on field lists. -/
def Json.beqFields : List (String × Json) → List (String × Json) → Bool
  | [], [] => true
  | a :: as, b :: bs => (a.1 == b.1) && Json.beq a.2 b.2 && Json.beqFields as bs
  | _, _ => false

end

instance : BEq Json := ⟨Json.beq⟩

/-- Model of `CollectionOptions` from `src/ketchup/src/k8s.rs` (lines 16-26). -/
structure CollectionOptions where
  include_secrets : Bool
  include_custom_resources : Bool
  include_events : Bool
  include_replicasets : Bool
  include_endpoints : Bool
  include_leases : Bool
  specific_crds : Option (List String)
  sanitize : Bool
  deriving DecidableEq, Repr

/-- Rust `char::to_ascii_lowercase`: lowercases ASCII uppercase letters,
leaves every other character unchanged. -/
def asciiLowerChar (c : Char) : Char :=
  if 65 ≤ c.toNat ∧ c.toNat ≤ 90 then Char.ofNat (c.toNat + 32) else c

/-- Rust `str::eq_ignore_ascii_case`: equality after ASCII lowercasing. -/
def eqIgnoreAsciiCase (a b : String) : Bool :=
  a.data.map asciiLowerChar == b.data.map asciiLowerChar

/-- Rust `str::contains` with a `char` pattern: does some character of the
string equal `c`. -/
def containsChar (s : String) (c : Char) : Bool :=
  s.data.any (fun x => x == c)

/-- Model of `should_collect_resource` from `src/ketchup/src/k8s.rs` (lines 208-244),
the inclusion policy: a `match` on the kind name whose wildcard arm applies
the dotted-name custom-resource heuristic. -/
def should_collect_resource (kind : String) (opts : CollectionOptions) : Bool :=
  if kind = "ComponentStatus" ∨ kind = "Binding" then false
  else if kind = "Secret" then opts.include_secrets
  else if kind = "Event" then opts.include_events
  else if kind = "ReplicaSet" then opts.include_replicasets
  else if kind = "Endpoints" ∨ kind = "EndpointSlice" then opts.include_endpoints
  else if kind = "Lease" then opts.include_leases
  else if containsChar kind '.' then
    match opts.specific_crds with
    | some crds => crds.any (fun crd => eqIgnoreAsciiCase kind crd)
    | none => opts.include_custom_resources
  else true

/-- The metadata subfields removed by `sanitize_resource`
(`src/ketchup/src/k8s.rs` lines 251-256). -/
def removedMetadataFields : List String :=
  ["uid", "resourceVersion", "selfLink", "creationTimestamp", "generation",
   "managedFields"]

/-- The metadata-stripping half of `sanitize_resource`: if the metadata
value is an object, its six server-assigned subfields are removed; any
other value is left alone (`as_object_mut` returns `None`). -/
def stripMetadata : Json → Json
  | .obj mfields => .obj (mfields.filter (fun f => ¬ removedMetadataFields.contains f.1))
  | v => v

/-- The effect of `sanitize_resource` on one top-level field: the
`metadata` field has its value stripped, every other field is untouched. -/
def sanitizeField (f : String × Json) : String × Json :=
  if f.1 = "metadata" then (f.1, stripMetadata f.2) else f

/-- Model of `sanitize_resource` from `src/ketchup/src/k8s.rs` (lines 247-262): on an
object, strip the listed metadata subfields in place and remove the
top-level `status` entry; on any non-object value, do nothing. -/
def sanitize_resource (v : Json) : Json :=
  match v with
  | .obj fields =>
      .obj ((fields.map sanitizeField).filter (fun f => f.1 ≠ "status"))
  | v => v

/-- Rust `Value::get` on a key: the value at the first matching field of an
object, `none` on non-objects. -/
def Json.getKey : Json → String → Option Json
  | .obj fields, k => (fields.find? (fun f => f.1 = k)).map (·.2)
  | _, _ => none

/-- Whether a value is a JSON object (`Value::as_object` succeeds). -/
def Json.isObj : Json → Bool
  | .obj _ => true
  | _ => false

/-- The top-level keys of an object, in order (empty for non-objects). -/
def Json.topKeys : Json → List String
  | .obj fields => fields.map (fun f => f.1)
  | _ => []

/-- A discovered API resource (`kube::discovery::ApiResource`): the fields
`collect_dynamic_resource` actually reads. -/
structure ApiResource where
  kind : String
  api_version : String
  deriving DecidableEq, Repr

/-- Resource scope from the discovery capabilities (`kube::discovery::Scope`). -/
inductive Scope where
  | cluster : Scope
  | namespaced : Scope
  deriving DecidableEq, Repr

/-- A discovery catalog entry: the `(ar, caps)` pair the collection loops
iterate over, reduced to the fields they read. -/
structure CatalogEntry where
  ar : ApiResource
  scope : Scope
  deriving DecidableEq, Repr

/-- Model of `collect_dynamic_resource` from `src/ketchup/src/k8s.rs` (lines
178-205), abstracted over the network: `listResult` is the outcome of the
`api.list` call for this resource (error = transport/decode failure for
this one kind).  On success every returned document is sanitized when
`opts.sanitize` is set. -/
def collect_dynamic_resource (opts : CollectionOptions)
    (listResult : Except String (List Json)) : Except String (List Json) :=
  match listResult with
  | .error e => .error e
  | .ok items => .ok (items.map (fun v => if opts.sanitize then sanitize_resource v else v))

/-- Rust `HashMap::insert` on an association list: replace the value at an
existing key, otherwise append the new binding. -/
def insertKV (m : List (String × List Json)) (k : String) (v : List Json) :
    List (String × List Json) :=
  if m.any (fun p => p.1 = k) then m.map (fun p => if p.1 = k then (k, v) else p)
  else m ++ [(k, v)]

/-- One iteration of the collection loop shared by
`collect_cluster_resources` (lines 96-124) and
`collect_namespace_resources` (lines 141-172): skip entries of the wrong
scope, apply the inclusion policy, then record the fetched items under the
kind — but only when fetching succeeded with at least one item; a fetch
error is caught (only logged) and an empty result is not inserted. -/
def collectStep (sc : Scope) (opts : CollectionOptions)
    (fetch : ApiResource → Except String (List Json))
    (acc : List (String × List Json)) (e : CatalogEntry) :
    List (String × List Json) :=
  if e.scope ≠ sc then acc
  else if ¬ should_collect_resource e.ar.kind opts then acc
  else
    match collect_dynamic_resource opts (fetch e.ar) with
    | .ok items => if items.isEmpty then acc else insertKV acc e.ar.kind items
    | .error _ => acc

/-- The body of a collection pass: fold `collectStep` over the discovered
catalog, starting from the empty result map. -/
def collectPassLoop (catalog : List CatalogEntry) (sc : Scope)
    (opts : CollectionOptions)
    (fetch : ApiResource → Except String (List Json)) :
    List (String × List Json) :=
  catalog.foldl (collectStep sc opts fetch) []

/-- Model of `collect_cluster_resources` from `src/ketchup/src/k8s.rs` (lines
86-127): run discovery (whose failure aborts the pass), then collect every
cluster-scoped, policy-approved kind.  `listRes ar none` stands for the
cluster-wide `api.list` call. -/
def collect_cluster_resources (disc : Except String (List CatalogEntry))
    (opts : CollectionOptions)
    (listRes : ApiResource → Option String → Except String (List Json)) :
    Except String (List (String × List Json)) :=
  match disc with
  | .error e => .error e
  | .ok catalog => .ok (collectPassLoop catalog .cluster opts (fun ar => listRes ar none))

/-- Model of `collect_namespace_resources` from `src/ketchup/src/k8s.rs` (lines
130-175): same loop restricted to namespaced kinds, listing within the
given namespace. -/
def collect_namespace_resources (ns : String)
    (disc : Except String (List CatalogEntry)) (opts : CollectionOptions)
    (listRes : ApiResource → Option String → Except String (List Json)) :
    Except String (List (String × List Json)) :=
  match disc with
  | .error e => .error e
  | .ok catalog => .ok (collectPassLoop catalog .namespaced opts (fun ar => listRes ar (some ns)))

/-- The run-fatal errors of the pipeline relevant here. -/
inductive KetchupError where
  | noValidNamespaces : KetchupError
  deriving DecidableEq, Repr

/-- Model of `verify_namespaces` from `src/ketchup/src/k8s.rs` (lines 66-83): keep
the requested namespaces present in the available list (in request order),
and fail with `NoValidNamespaces` when none survives. -/
def verify_namespaces (requested available : List String) :
    Except KetchupError (List String) :=
  let verified := requested.filter (fun ns => available.contains ns)
  if verified.isEmpty then .error .noValidNamespaces else .ok verified

/-- The warnings `verify_namespaces` emits: one per requested namespace
that is not available (line 74). -/
def verify_namespaces_warnings (requested available : List String) : List String :=
  requested.filter (fun ns => ¬ available.contains ns)

/-- An API-server call made by a collection pass: a discovery run
(`discovery::Discovery::new(..).run()`) or a list call for one kind,
cluster-wide (`none`) or in one namespace. -/
inductive ApiCall where
  | discovery : ApiCall
  | listCall (kind : String) (ns : Option String) : ApiCall
  deriving DecidableEq, Repr

/-- The API calls one collection pass makes, read off
`collect_cluster_resources` (discovery at line 93, list calls via line 111)
and `collect_namespace_resources` (discovery at line 138, list calls via
line 157): each pass first runs discovery itself, then issues one list call
per catalog entry of the right scope that passes the inclusion policy. -/
def passTrace (catalog : List CatalogEntry) (sc : Scope)
    (opts : CollectionOptions) (ns : Option String) : List ApiCall :=
  ApiCall.discovery ::
    (catalog.filter (fun e => decide (e.scope = sc) && should_collect_resource e.ar.kind opts)).map
      (fun e => ApiCall.listCall e.ar.kind ns)

/-- The API calls of one whole run, read off `main`
(`src/ketchup/src/main.rs` lines 132-170): one cluster pass, then one
namespaced pass per verified namespace, in order. -/
def mainTrace (catalog : List CatalogEntry) (opts : CollectionOptions)
    (namespaces : List String) : List ApiCall :=
  passTrace catalog .cluster opts none ++
    namespaces.flatMap (fun ns => passTrace catalog .namespaced opts (some ns))

/-- Model of the namespace handling in `main` followed by collection
(`src/ketchup/src/main.rs` lines 95-101 and 132-170): when an explicit
namespace list is given it is verified first and a verification failure
aborts the run before any collection call; otherwise all available
namespaces are used. -/
def mainRunCalls (requested : Option (List String)) (available : List String)
    (catalog : List CatalogEntry) (opts : CollectionOptions) :
    Except KetchupError (List ApiCall) :=
  match requested with
  | some req =>
      match verify_namespaces req available with
      | .error e => .error e
      | .ok nss => .ok (mainTrace catalog opts nss)
  | none => .ok (mainTrace catalog opts available)

/-- The `metadata.name` lookup used by `save_resource_type`
(`src/ketchup/src/output.rs` lines 96-100): the name is used only when
`metadata` exists, has a `name` field, and that field is a string. -/
def resourceName (item : Json) : Option String :=
  match item.getKey "metadata" with
  | some m =>
      match m.getKey "name" with
      | some (.str s) => some s
      | _ => none
  | none => none

/-- Whether `save_resource_type` writes (and counts) this item. -/
def isNamed (item : Json) : Bool :=
  (resourceName item).isSome

/-- Model of `save_resource_type` from `src/ketchup/src/output.rs` (lines 77-132),
reduced to its returned count: zero for an empty slice; otherwise one per
item whose `metadata.name` is a string, written in the requested format —
an unknown format only errors when some named item is reached. -/
def save_resource_type (format : String) (items : List Json) :
    Except String Nat :=
  if items.isEmpty then .ok 0
  else
    let named := items.filter isNamed
    if named.isEmpty then .ok 0
    else if format = "json" ∨ format = "yaml" ∨ format = "both" then .ok named.length
    else .error "Invalid format"

/-- The stats maps built by `save_cluster_resources` (lines 33-50) and
`save_namespace_resources` (lines 53-74): one `(kind, count)` entry per
resource map entry, where the count comes from `save_resource_type`; any
save error aborts. -/
def save_resources_stats (format : String) :
    List (String × List Json) → Except String (List (String × Nat))
  | [] => .ok []
  | (kind, items) :: rest =>
      match save_resource_type format items with
      | .error e => .error e
      | .ok c =>
          match save_resources_stats format rest with
          | .error e => .error e
          | .ok s => .ok ((kind, c) :: s)

/-- Rust `HashMap::entry(k).or_insert(0) += c` on an association list: add to
the value at the (unique) existing binding for `k`, otherwise add a new
binding `k ↦ c`. -/
def bumpCount : List (String × Nat) → String → Nat → List (String × Nat)
  | [], k, c => [(k, c)]
  | p :: rest, k, c =>
      if p.1 = k then (p.1, p.2 + c) :: rest else p :: bumpCount rest k c

/-- Sum of the counts of a stats map (`stats.values().sum()`). -/
def sumCounts (m : List (String × Nat)) : Nat :=
  (m.map (fun p => p.2)).sum

/-- The numeric content of the summary document built by
`create_collection_summary`. -/
structure Summary where
  total_namespaces : Nat
  total_cluster_resources : Nat
  total_namespaced_resources : Nat
  total_resources : Nat
  resource_type_counts : List (String × Nat)
  cluster_resource_types : List (String × Nat)
  namespace_details : List (String × Nat × List (String × Nat))
  deriving Repr

/-- Model of `create_collection_summary` from `src/ketchup/src/output.rs` (lines
135-230), restricted to the aggregation it performs (the surrounding JSON
scaffolding and file write carry these numbers verbatim): totals over the
cluster stats, per-namespace sums, and per-kind grand totals accumulated
first over the stats of every namespace and then over the cluster stats. -/
def create_collection_summary (cluster_stats : List (String × Nat))
    (namespace_stats : List (String × List (String × Nat))) : Summary :=
  let total_cluster := sumCounts cluster_stats
  let total_namespaced := namespace_stats.foldl (fun t p => t + sumCounts p.2) 0
  let rtt0 := namespace_stats.foldl
    (fun m p => p.2.foldl (fun m q => bumpCount m q.1 q.2) m) []
  let rtt := cluster_stats.foldl (fun m q => bumpCount m q.1 q.2) rtt0
  { total_namespaces := namespace_stats.length
    total_cluster_resources := total_cluster
    total_namespaced_resources := total_namespaced
    total_resources := total_cluster + total_namespaced
    resource_type_counts := rtt
    cluster_resource_types := cluster_stats
    namespace_details := namespace_stats.map (fun p => (p.1, sumCounts p.2, p.2)) }

/-- Total of all counts recorded under key `k` in a stats map. -/
def countOf (m : List (String × Nat)) (k : String) : Nat :=
  ((m.filter (fun p => p.1 = k)).map (fun p => p.2)).sum

mutual

/-- Well-formedness of a document as a `serde_json::Value`: every object,
at every depth, has pairwise distinct keys (`serde_json::Map` is a map, so
a value produced by serde can never carry a duplicate key). -/
def Json.wf : Json → Bool
  | .null => true
  | .bool _ => true
  | .num _ => true
  | .str _ => true
  | .arr elems => Json.wfList elems
  | .obj fields => (fields.map (fun f => f.1)).Nodup && Json.wfFields fields

/-- Well-formedness of every element of a list. -/
def Json.wfList : List Json → Bool
  | [] => true
  | v :: rest => Json.wf v && Json.wfList rest

/-- Well-formedness of every field value of an object. -/
def Json.wfFields : List (String × Json) → Bool
  | [] => true
  | f :: rest => Json.wf f.2 && Json.wfFields rest

end

mutual

/-- "`a` has no field that `b` lacks": every object key of `a`, at every
depth, is a key of `b` at the same place, the shared fields again related;
non-object values must agree exactly. -/
def keysSubset : Json → Json → Bool
  | .obj a, .obj b => keysSubsetFields a b
  | x, y => Json.beq x y

/-- Every field of the first list resolves, by key, to a field of the
second whose value it is related to. -/
def keysSubsetFields : List (String × Json) → List (String × Json) → Bool
  | [], _ => true
  | f :: rest, b =>
      (match (b.find? (fun g => g.1 = f.1)).map (fun g => g.2) with
       | some w => keysSubset f.2 w
       | none => false) && keysSubsetFields rest b

end

/-- A concrete all-defaults option set (every CLI flag left off: only the
sanitize default is on), used to instantiate the theorems below. -/
def defaultOpts : CollectionOptions :=
  { include_secrets := false
    include_custom_resources := false
    include_events := false
    include_replicasets := false
    include_endpoints := false
    include_leases := false
    specific_crds := none
    sanitize := true }

/-- A concrete catalog entry for the cluster-scoped kind `Event`. -/
def wEventEntry : CatalogEntry := ⟨⟨"Event", "v1"⟩, .cluster⟩

/-- A concrete catalog entry for the cluster-scoped kind `Namespace`. -/
def wNamespaceEntry : CatalogEntry := ⟨⟨"Namespace", "v1"⟩, .cluster⟩

/-- A concrete named document. -/
def wDoc : Json := .obj [("metadata", .obj [("name", .str "default")])]

/-- A concrete list-call outcome: transport error for `Event`, one named
document for everything else. -/
def wListRes : ApiResource → Option String → Except String (List Json) :=
  fun ar _ => if ar.kind = "Event" then .error "transport" else .ok [wDoc]

/-- A concrete resource document exercising every sanitization case. -/
def wFullDoc : List (String × Json) :=
  [("apiVersion", .str "v1"),
   ("metadata", .obj [("name", .str "x"), ("uid", .str "u")]),
   ("status", .null),
   ("spec", .num 2)]

/-- C1: the inclusion policy always excludes `ComponentStatus` and
`Binding`; returns the secrets toggle on `Secret`, the events toggle on
`Event`, the replica-controller toggle on `ReplicaSet`, the endpoints
toggle on `Endpoints` and `EndpointSlice`, and the leases toggle on
`Lease`; and accepts every other kind name without a dot. -/
theorem C1_inclusion_policy (opts : CollectionOptions) (kind : String) :
    should_collect_resource "ComponentStatus" opts = false ∧
    should_collect_resource "Binding" opts = false ∧
    should_collect_resource "Secret" opts = opts.include_secrets ∧
    should_collect_resource "Event" opts = opts.include_events ∧
    should_collect_resource "ReplicaSet" opts = opts.include_replicasets ∧
    should_collect_resource "Endpoints" opts = opts.include_endpoints ∧
    should_collect_resource "EndpointSlice" opts = opts.include_endpoints ∧
    should_collect_resource "Lease" opts = opts.include_leases ∧
    (kind ∉ (["ComponentStatus", "Binding", "Secret", "Event", "ReplicaSet",
        "Endpoints", "EndpointSlice", "Lease"] : List String) →
      containsChar kind '.' = false →
      should_collect_resource kind opts = true) := by
  refine ⟨rfl, rfl, rfl, rfl, rfl, rfl, rfl, rfl, ?_⟩
  intro hmem hdot
  simp only [List.mem_cons, List.not_mem_nil, or_false, not_or] at hmem
  obtain ⟨h1, h2, h3, h4, h5, h6, h7, h8⟩ := hmem
  simp [should_collect_resource, h1, h2, h3, h4, h5, h6, h7, h8, hdot]

/-- C1 witness: the policy evaluated at concrete kinds and options. -/
theorem C1_inclusion_policy_witness :
    should_collect_resource "ComponentStatus" defaultOpts = false ∧
    should_collect_resource "Pod" defaultOpts = true :=
  ⟨(C1_inclusion_policy defaultOpts "Pod").1,
   (C1_inclusion_policy defaultOpts "Pod").2.2.2.2.2.2.2.2 (by decide) (by decide)⟩

/-- C2: for a dotted kind name, an explicit `specific_crds` list makes
inclusion an ASCII-case-insensitive membership test in that list (the
blanket custom-resource flag does not appear in the outcome), while with no
list the blanket flag alone decides. -/
theorem C2_custom_resource_policy (kind : String) (opts : CollectionOptions)
    (crds : List String) :
    containsChar kind '.' = true →
    (opts.specific_crds = some crds →
      should_collect_resource kind opts = crds.any (fun crd => eqIgnoreAsciiCase kind crd)) ∧
    (opts.specific_crds = none →
      should_collect_resource kind opts = opts.include_custom_resources) := by
  intro hdot
  have h1 : kind ≠ "ComponentStatus" := by rintro rfl; exact absurd hdot (by decide)
  have h2 : kind ≠ "Binding" := by rintro rfl; exact absurd hdot (by decide)
  have h3 : kind ≠ "Secret" := by rintro rfl; exact absurd hdot (by decide)
  have h4 : kind ≠ "Event" := by rintro rfl; exact absurd hdot (by decide)
  have h5 : kind ≠ "ReplicaSet" := by rintro rfl; exact absurd hdot (by decide)
  have h6 : kind ≠ "Endpoints" := by rintro rfl; exact absurd hdot (by decide)
  have h7 : kind ≠ "EndpointSlice" := by rintro rfl; exact absurd hdot (by decide)
  have h8 : kind ≠ "Lease" := by rintro rfl; exact absurd hdot (by decide)
  constructor
  · intro hsome
    simp [should_collect_resource, h1, h2, h3, h4, h5, h6, h7, h8, hdot, hsome]
  · intro hnone
    simp [should_collect_resource, h1, h2, h3, h4, h5, h6, h7, h8, hdot, hnone]

/-- C2 witness: a dotted kind against a concrete allow-list (matching up to
ASCII case even though the blanket flag is off) and against no list. -/
theorem C2_custom_resource_policy_witness :
    should_collect_resource "widgets.example.com"
      { defaultOpts with specific_crds := some ["Widgets.Example.COM"] } = true ∧
    should_collect_resource "widgets.example.com" defaultOpts = false := by
  constructor
  · have h := (C2_custom_resource_policy "widgets.example.com"
      { defaultOpts with specific_crds := some ["Widgets.Example.COM"] }
      ["Widgets.Example.COM"] (by decide)).1 rfl
    rw [h]; decide
  · have h := (C2_custom_resource_policy "widgets.example.com" defaultOpts []
      (by decide)).2 rfl
    rw [h]; rfl

/-- Everything in `insertKV m k v` is the inserted binding or was in `m`. -/
theorem mem_insertKV (m : List (String × List Json)) (k : String)
    (v : List Json) : ∀ p ∈ insertKV m k v, p = (k, v) ∨ p ∈ m := by
  intro p hp
  unfold insertKV at hp
  split at hp
  · simp only [List.mem_map] at hp
    obtain ⟨q, hq, hpq⟩ := hp
    by_cases h : q.1 = k
    · rw [if_pos h] at hpq
      exact Or.inl hpq.symm
    · rw [if_neg h] at hpq
      exact Or.inr (hpq ▸ hq)
  · rcases List.mem_append.mp hp with h | h
    · exact Or.inr h
    · exact Or.inl (List.mem_singleton.mp h)

/-- A collection step only adds a non-empty binding for the kind of its entry. -/
theorem mem_collectStep (sc : Scope) (opts : CollectionOptions)
    (fetch : ApiResource → Except String (List Json))
    (acc : List (String × List Json)) (e : CatalogEntry) :
    ∀ p ∈ collectStep sc opts fetch acc e,
      (p.1 = e.ar.kind ∧ p.2 ≠ []) ∨ p ∈ acc := by
  intro p hp
  unfold collectStep at hp
  split at hp
  · exact Or.inr hp
  · split at hp
    · exact Or.inr hp
    · split at hp
      next items _ =>
        split at hp
        · exact Or.inr hp
        · next hne =>
            rcases mem_insertKV acc e.ar.kind items p hp with h | h
            · refine Or.inl ⟨congrArg Prod.fst h, ?_⟩
              rw [h]
              simpa [List.isEmpty_iff] using hne
            · exact Or.inr h
      next => exact Or.inr hp

/-- A step whose fetch (after sanitization) errored records nothing. -/
theorem collectStep_of_error (sc : Scope) (opts : CollectionOptions)
    (fetch : ApiResource → Except String (List Json))
    (acc : List (String × List Json)) (e : CatalogEntry)
    (h : ∃ msg, collect_dynamic_resource opts (fetch e.ar) = .error msg) :
    collectStep sc opts fetch acc e = acc := by
  obtain ⟨msg, hm⟩ := h
  simp [collectStep, hm]

/-- Folding the collection step preserves "all recorded values are
non-empty". -/
theorem collect_foldl_nonempty (sc : Scope) (opts : CollectionOptions)
    (fetch : ApiResource → Except String (List Json)) :
    ∀ (catalog : List CatalogEntry) (acc : List (String × List Json)),
      (∀ p ∈ acc, p.2 ≠ []) →
      ∀ p ∈ catalog.foldl (collectStep sc opts fetch) acc, p.2 ≠ [] := by
  intro catalog
  induction catalog with
  | nil => intro acc h p hp; exact h p hp
  | cons e rest ih =>
      intro acc h p hp
      refine ih (collectStep sc opts fetch acc e) ?_ p hp
      intro q hq
      rcases mem_collectStep sc opts fetch acc e q hq with ⟨_, hne⟩ | hmem
      · exact hne
      · exact h q hmem

/-- Every key recorded by the collection fold comes from the catalog (or
was in the accumulator already). -/
theorem collect_foldl_keys (sc : Scope) (opts : CollectionOptions)
    (fetch : ApiResource → Except String (List Json)) :
    ∀ (catalog : List CatalogEntry) (acc : List (String × List Json)),
      ∀ p ∈ catalog.foldl (collectStep sc opts fetch) acc,
        (∃ e ∈ catalog, e.ar.kind = p.1) ∨ p ∈ acc := by
  intro catalog
  induction catalog with
  | nil => intro acc p hp; exact Or.inr hp
  | cons e rest ih =>
      intro acc p hp
      rcases ih (collectStep sc opts fetch acc e) p hp with ⟨e', he', hk⟩ | hmem
      · exact Or.inl ⟨e', List.mem_cons_of_mem e he', hk⟩
      · rcases mem_collectStep sc opts fetch acc e p hmem with ⟨hk, _⟩ | hacc
        · exact Or.inl ⟨e, List.mem_cons_self e rest, hk.symm⟩
        · exact Or.inr hacc

/-- Removing a catalog entry whose fetch errors does not change the fold. -/
theorem collect_foldl_drop_error (sc : Scope) (opts : CollectionOptions)
    (fetch : ApiResource → Except String (List Json))
    (c1 c2 : List CatalogEntry) (e : CatalogEntry)
    (h : ∃ msg, collect_dynamic_resource opts (fetch e.ar) = .error msg) :
    (c1 ++ e :: c2).foldl (collectStep sc opts fetch) []
      = (c1 ++ c2).foldl (collectStep sc opts fetch) [] := by
  rw [List.foldl_append, List.foldl_append, List.foldl_cons,
    collectStep_of_error sc opts fetch _ e h]

/-- C3: in both collection passes, a per-kind fetch failure is caught in
the loop: the pass still returns `Ok`, its result is exactly the result of
running the pass on the catalog without the failing entry, and (when no
other catalog entry shares the kind) the failing kind is absent from the
returned map. -/
theorem C3_fetch_failure_isolated (c1 c2 : List CatalogEntry)
    (e : CatalogEntry) (opts : CollectionOptions)
    (listRes : ApiResource → Option String → Except String (List Json))
    (ns : String) :
    ((∃ msg, collect_dynamic_resource opts (listRes e.ar none) = .error msg) →
      collect_cluster_resources (.ok (c1 ++ e :: c2)) opts listRes
        = .ok (collectPassLoop (c1 ++ c2) .cluster opts (fun ar => listRes ar none)) ∧
      collect_cluster_resources (.ok (c1 ++ e :: c2)) opts listRes
        = collect_cluster_resources (.ok (c1 ++ c2)) opts listRes ∧
      ((∀ e' ∈ c1 ++ c2, e'.ar.kind ≠ e.ar.kind) →
        ∀ p ∈ collectPassLoop (c1 ++ e :: c2) .cluster opts (fun ar => listRes ar none),
          p.1 ≠ e.ar.kind)) ∧
    ((∃ msg, collect_dynamic_resource opts (listRes e.ar (some ns)) = .error msg) →
      collect_namespace_resources ns (.ok (c1 ++ e :: c2)) opts listRes
        = .ok (collectPassLoop (c1 ++ c2) .namespaced opts (fun ar => listRes ar (some ns))) ∧
      collect_namespace_resources ns (.ok (c1 ++ e :: c2)) opts listRes
        = collect_namespace_resources ns (.ok (c1 ++ c2)) opts listRes ∧
      ((∀ e' ∈ c1 ++ c2, e'.ar.kind ≠ e.ar.kind) →
        ∀ p ∈ collectPassLoop (c1 ++ e :: c2) .namespaced opts (fun ar => listRes ar (some ns)),
          p.1 ≠ e.ar.kind)) := by
  constructor
  · intro h
    have hdrop := collect_foldl_drop_error .cluster opts (fun ar => listRes ar none) c1 c2 e h
    refine ⟨?_, ?_, ?_⟩
    · simp only [collect_cluster_resources, collectPassLoop]
      exact congrArg Except.ok hdrop
    · simp only [collect_cluster_resources, collectPassLoop]
      exact congrArg Except.ok hdrop
    · intro huniq p hp
      rw [collectPassLoop, hdrop] at hp
      rcases collect_foldl_keys .cluster opts (fun ar => listRes ar none) (c1 ++ c2) [] p hp with
        ⟨e', he', hk⟩ | habs
      · exact hk ▸ huniq e' he'
      · exact absurd habs (List.not_mem_nil p)
  · intro h
    have hdrop := collect_foldl_drop_error .namespaced opts (fun ar => listRes ar (some ns)) c1 c2 e h
    refine ⟨?_, ?_, ?_⟩
    · simp only [collect_namespace_resources, collectPassLoop]
      exact congrArg Except.ok hdrop
    · simp only [collect_namespace_resources, collectPassLoop]
      exact congrArg Except.ok hdrop
    · intro huniq p hp
      rw [collectPassLoop, hdrop] at hp
      rcases collect_foldl_keys .namespaced opts (fun ar => listRes ar (some ns)) (c1 ++ c2) [] p hp with
        ⟨e', he', hk⟩ | habs
      · exact hk ▸ huniq e' he'
      · exact absurd habs (List.not_mem_nil p)

/-- C3 witness: with a two-entry catalog whose `Event` fetch errors, the
cluster pass returns `Ok` and equals the pass over the catalog without the
`Event` entry. -/
theorem C3_fetch_failure_isolated_witness :
    collect_cluster_resources (.ok ([] ++ wEventEntry :: [wNamespaceEntry]))
        defaultOpts wListRes
      = .ok (collectPassLoop ([] ++ [wNamespaceEntry]) .cluster defaultOpts
          (fun ar => wListRes ar none)) :=
  ((C3_fetch_failure_isolated [] [wNamespaceEntry] wEventEntry defaultOpts
      wListRes "default").1 ⟨"transport", rfl⟩).1

/-- C7: any result map either pass returns maps no kind to an empty list:
a kind fetched successfully with zero instances is never inserted. -/
theorem C7_nonempty_values (disc : Except String (List CatalogEntry))
    (opts : CollectionOptions)
    (listRes : ApiResource → Option String → Except String (List Json))
    (ns : String) (m : List (String × List Json)) :
    (collect_cluster_resources disc opts listRes = .ok m ∨
      collect_namespace_resources ns disc opts listRes = .ok m) →
    ∀ p ∈ m, p.2 ≠ [] := by
  intro h p hp
  rcases h with h | h
  · cases disc with
    | error e => simp [collect_cluster_resources] at h
    | ok catalog =>
        simp only [collect_cluster_resources, Except.ok.injEq] at h
        subst h
        exact collect_foldl_nonempty .cluster opts (fun ar => listRes ar none) catalog []
          (fun q hq => absurd hq (List.not_mem_nil q)) p hp
  · cases disc with
    | error e => simp [collect_namespace_resources] at h
    | ok catalog =>
        simp only [collect_namespace_resources, Except.ok.injEq] at h
        subst h
        exact collect_foldl_nonempty .namespaced opts (fun ar => listRes ar (some ns)) catalog []
          (fun q hq => absurd hq (List.not_mem_nil q)) p hp

/-- C7 witness: the concrete cluster pass records `Namespace` with one
document, and that recorded value is non-empty. -/
theorem C7_nonempty_values_witness :
    (("Namespace", [wDoc]) : String × List Json).2 ≠ [] :=
  C7_nonempty_values (.ok [wNamespaceEntry]) defaultOpts wListRes "default"
    [("Namespace", [wDoc])] (Or.inl rfl) ("Namespace", [wDoc])
    (List.mem_singleton.mpr rfl)

/-- Each pass trace contains exactly one discovery call. -/
theorem passTrace_count_discovery (catalog : List CatalogEntry) (sc : Scope)
    (opts : CollectionOptions) (ns : Option String) :
    (passTrace catalog sc opts ns).count ApiCall.discovery = 1 := by
  unfold passTrace
  rw [List.count_cons_self]
  have h0 : (List.map (fun e => ApiCall.listCall e.ar.kind ns)
      (catalog.filter (fun e => decide (e.scope = sc) && should_collect_resource e.ar.kind opts))).count
        ApiCall.discovery = 0 := by
    rw [List.count_eq_zero]
    intro hmem
    rcases List.mem_map.mp hmem with ⟨e, _, he⟩
    exact ApiCall.noConfusion he
  omega

/-- C4 counterexample: in a run over two namespaces, discovery is invoked
three times, not once: each collection pass (the cluster pass and every
per-namespace pass) runs its own discovery. -/
theorem C4_discovery_once_counterexample :
    (mainTrace [wNamespaceEntry] defaultOpts ["a", "b"]).count ApiCall.discovery = 3 ∧
    (3 : Nat) ≠ 1 := by
  constructor
  · decide
  · decide

/-- C4 amended: discovery is invoked once at the start of every collection
pass — `n + 1` times for a run over `n` namespaces — so the catalog is
rebuilt for each namespace iteration rather than reused across passes. -/
theorem C4_discovery_per_pass (catalog : List CatalogEntry)
    (opts : CollectionOptions) (namespaces : List String) (sc : Scope)
    (ns : Option String) :
    (mainTrace catalog opts namespaces).count ApiCall.discovery
      = namespaces.length + 1 ∧
    (passTrace catalog sc opts ns).head? = some ApiCall.discovery := by
  constructor
  · unfold mainTrace
    rw [List.count_append, passTrace_count_discovery]
    have h : ∀ nss : List String,
        (nss.flatMap (fun n => passTrace catalog .namespaced opts (some n))).count
          ApiCall.discovery = nss.length := by
      intro nss
      induction nss with
      | nil => rfl
      | cons n rest ih =>
          rw [List.flatMap_cons, List.count_append, passTrace_count_discovery, ih,
            List.length_cons]
          omega
    rw [h]
    omega
  · rfl

/-- C8: namespace verification keeps exactly the requested namespaces that
exist (in request order), records a warning for each dropped one, fails
with `NoValidNamespaces` precisely when no requested namespace exists, and
that failure aborts the run before any collection API call is made. -/
theorem C8_verify_namespaces (requested available : List String)
    (catalog : List CatalogEntry) (opts : CollectionOptions) :
    ((∃ ns ∈ requested, ns ∈ available) →
      verify_namespaces requested available
        = .ok (requested.filter (fun ns => available.contains ns))) ∧
    (verify_namespaces requested available = .error .noValidNamespaces ↔
      ∀ ns ∈ requested, ns ∉ available) ∧
    (∀ ns ∈ requested, ns ∉ available →
      ns ∈ verify_namespaces_warnings requested available) ∧
    (verify_namespaces requested available = .error .noValidNamespaces →
      mainRunCalls (some requested) available catalog opts
        = .error .noValidNamespaces) := by
  refine ⟨?_, ?_, ?_, ?_⟩
  · rintro ⟨ns, hreq, hav⟩
    have hc : available.contains ns = true := by simpa using hav
    have hne : (requested.filter (fun n => available.contains n)).isEmpty = false := by
      simpa [List.isEmpty_iff] using
        List.ne_nil_of_mem (List.mem_filter.mpr ⟨hreq, hc⟩)
    simp only [verify_namespaces, hne, Bool.false_eq_true, if_false]
  · constructor
    · intro h ns hreq hav
      simp [verify_namespaces] at h
      exact h ns hreq hav
    · intro h
      simp only [verify_namespaces, List.isEmpty_iff, List.filter_eq_nil_iff]
      rw [if_pos]
      intro ns hns
      simpa using h ns hns
  · intro ns hreq hav
    refine List.mem_filter.mpr ⟨hreq, ?_⟩
    simpa using hav
  · intro h
    simp [mainRunCalls, h]

/-- C8 witness: requesting an existing and a missing namespace keeps the
existing one and warns on the missing one; requesting only missing ones
fails and yields no collection calls. -/
theorem C8_verify_namespaces_witness :
    verify_namespaces ["ns-a", "does-not-exist"] ["ns-a"] = .ok ["ns-a"] ∧
    "does-not-exist" ∈ verify_namespaces_warnings ["ns-a", "does-not-exist"] ["ns-a"] ∧
    mainRunCalls (some ["does-not-exist"]) ["ns-a"] [wNamespaceEntry] defaultOpts
      = .error .noValidNamespaces := by
  refine ⟨?_, ?_, ?_⟩
  · have h := (C8_verify_namespaces ["ns-a", "does-not-exist"] ["ns-a"]
      [wNamespaceEntry] defaultOpts).1 ⟨"ns-a", by decide, by decide⟩
    rw [h]; rfl
  · exact (C8_verify_namespaces ["ns-a", "does-not-exist"] ["ns-a"]
      [wNamespaceEntry] defaultOpts).2.2.1 "does-not-exist" (by decide) (by decide)
  · exact (C8_verify_namespaces ["does-not-exist"] ["ns-a"]
      [wNamespaceEntry] defaultOpts).2.2.2 rfl

/-- The per-field sanitizer never changes the key of a field. -/
theorem sanitizeField_fst (f : String × Json) : (sanitizeField f).1 = f.1 := by
  unfold sanitizeField
  split <;> rfl

/-- Key-based `find?` through a key-based `filter`. -/
theorem find?_key_filter {β : Type} (l : List (String × β)) (k : String)
    (q : String → Bool) :
    (l.filter (fun f => q f.1)).find? (fun f => f.1 = k)
      = if q k then l.find? (fun f => f.1 = k) else none := by
  induction l with
  | nil => simp
  | cons f rest ih =>
      by_cases hk : f.1 = k
      · subst hk
        by_cases hq : q f.1
        · simp [List.filter_cons, List.find?_cons, hq]
        · simp [List.filter_cons, List.find?_cons, hq, ih]
      · by_cases hq : q f.1
        · simp [List.filter_cons, List.find?_cons, hq, hk, ih]
        · simp [List.filter_cons, List.find?_cons, hq, hk, ih]

/-- Key-based `find?` through the per-field sanitizer map. -/
theorem find?_key_map_sanitizeField (l : List (String × Json)) (k : String) :
    (l.map sanitizeField).find? (fun f => f.1 = k)
      = (l.find? (fun f => f.1 = k)).map sanitizeField := by
  induction l with
  | nil => simp
  | cons f rest ih =>
      by_cases hk : f.1 = k
      · simp [List.find?_cons, sanitizeField_fst, hk]
      · simp [List.find?_cons, sanitizeField_fst, hk, ih]

/-- Reading a key after sanitization, for any key other than `status`: the
original value, run through the metadata stripper when the key is
`metadata`. -/
theorem getKey_sanitize_obj (fields : List (String × Json)) (k : String)
    (hks : k ≠ "status") :
    (sanitize_resource (.obj fields)).getKey k
      = ((Json.obj fields).getKey k).map
          (fun v => if k = "metadata" then stripMetadata v else v) := by
  show (((fields.map sanitizeField).filter (fun f => f.1 ≠ "status")).find?
      (fun f => f.1 = k)).map (fun f => f.2) = _
  have hq : (fun key => (decide (key ≠ "status") : Bool)) k = true := by
    simpa using hks
  rw [find?_key_filter (fields.map sanitizeField) k
      (fun key => (decide (key ≠ "status") : Bool)), if_pos hq,
    find?_key_map_sanitizeField]
  cases hfind : fields.find? (fun f => f.1 = k) with
  | none => simp [Json.getKey, hfind]
  | some f =>
      have hfk : f.1 = k := by simpa using List.find?_some hfind
      simp only [Json.getKey, hfind, Option.map_some]
      show some (sanitizeField f).2 = some (if k = "metadata" then stripMetadata f.2 else f.2)
      unfold sanitizeField
      rw [hfk]
      by_cases hm : k = "metadata"
      · rw [if_pos hm, if_pos hm]
      · rw [if_neg hm, if_neg hm]

/-- Reading `status` after sanitization: removed. -/
theorem getKey_sanitize_status (fields : List (String × Json)) :
    (sanitize_resource (.obj fields)).getKey "status" = none := by
  show (((fields.map sanitizeField).filter (fun f => f.1 ≠ "status")).find?
      (fun f => f.1 = "status")).map (fun f => f.2) = none
  rw [find?_key_filter (fields.map sanitizeField) "status"
      (fun key => (decide (key ≠ "status") : Bool)), if_neg (by simp)]
  rfl

/-- Reading a key on a stripped metadata object: removed subfields are gone,
every other subfield keeps its value. -/
theorem getKey_stripMetadata (mfields : List (String × Json)) (k : String) :
    (stripMetadata (.obj mfields)).getKey k
      = if removedMetadataFields.contains k then none
        else (Json.obj mfields).getKey k := by
  show ((mfields.filter (fun f => ¬ removedMetadataFields.contains f.1)).find?
      (fun f => f.1 = k)).map (fun f => f.2) = _
  rw [find?_key_filter mfields k
      (fun key => (decide (¬ removedMetadataFields.contains key = true) : Bool))]
  by_cases hk : removedMetadataFields.contains k
  · rw [if_neg (by simpa using hk), if_pos hk]
    rfl
  · rw [if_pos (by simpa using hk), if_neg hk]
    rfl

/-- The top-level keys surviving sanitization, in order: the original keys
with `status` dropped. -/
theorem keys_sanitize_obj (fields : List (String × Json)) :
    ((fields.map sanitizeField).filter (fun f => f.1 ≠ "status")).map (fun f => f.1)
      = (fields.map (fun f => f.1)).filter (fun k => k ≠ "status") := by
  induction fields with
  | nil => rfl
  | cons f rest ih =>
      by_cases hs : f.1 = "status"
      · simp [List.filter_cons, sanitizeField_fst, hs]
        simpa using ih
      · simp [List.filter_cons, sanitizeField_fst, hs]
        simpa using ih

/-- C5: sanitization removes exactly the six listed metadata subfields and
the top-level `status` subtree: any other top-level key keeps its exact
value (nested structure included), the surviving keys keep their original
order, any other metadata subfield keeps its exact value, and with the
sanitize option off documents pass through collection unchanged. -/
theorem C5_sanitize_removes_only_listed (fields mfields : List (String × Json))
    (k : String) (opts : CollectionOptions) (items : List Json) :
    (k ≠ "status" → k ≠ "metadata" →
      (sanitize_resource (.obj fields)).getKey k = (Json.obj fields).getKey k) ∧
    (sanitize_resource (.obj fields)).getKey "status" = none ∧
    ((Json.obj fields).getKey "metadata" = some (.obj mfields) →
      (sanitize_resource (.obj fields)).getKey "metadata"
        = some (.obj (mfields.filter (fun f => ¬ removedMetadataFields.contains f.1)))) ∧
    (¬ removedMetadataFields.contains k →
      (stripMetadata (.obj mfields)).getKey k = (Json.obj mfields).getKey k) ∧
    (removedMetadataFields.contains k →
      (stripMetadata (.obj mfields)).getKey k = none) ∧
    (sanitize_resource (.obj fields)).topKeys
      = (fields.map (fun f => f.1)).filter (fun key => key ≠ "status") ∧
    (opts.sanitize = false → collect_dynamic_resource opts (.ok items) = .ok items) := by
  refine ⟨?_, getKey_sanitize_status fields, ?_, ?_, ?_, ?_, ?_⟩
  · intro hks hkm
    rw [getKey_sanitize_obj fields k hks]
    cases (Json.obj fields).getKey k with
    | none => rfl
    | some v => simp [hkm]
  · intro hmeta
    rw [getKey_sanitize_obj fields "metadata" (by decide), hmeta]
    rfl
  · intro hk
    rw [getKey_stripMetadata mfields k, if_neg hk]
  · intro hk
    rw [getKey_stripMetadata mfields k, if_pos hk]
  · show ((fields.map sanitizeField).filter (fun f => f.1 ≠ "status")).map (fun f => f.1) = _
    exact keys_sanitize_obj fields
  · intro hraw
    simp [collect_dynamic_resource, hraw]

/-- C5 witness: on a concrete document, a non-special key keeps its value,
and with sanitize off a concrete item list passes through unchanged. -/
theorem C5_sanitize_removes_only_listed_witness :
    (sanitize_resource (.obj wFullDoc)).getKey "spec" = (Json.obj wFullDoc).getKey "spec" ∧
    collect_dynamic_resource { defaultOpts with sanitize := false } (.ok [wDoc])
      = .ok [wDoc] :=
  ⟨(C5_sanitize_removes_only_listed wFullDoc [] "spec" defaultOpts []).1
      (by decide) (by decide),
   (C5_sanitize_removes_only_listed wFullDoc [] "spec"
      { defaultOpts with sanitize := false } [wDoc]).2.2.2.2.2.2 rfl⟩

/-- Stripping metadata on a non-object value does nothing. -/
theorem stripMetadata_of_not_obj (v : Json) (h : v.isObj = false) :
    stripMetadata v = v := by
  cases v with
  | obj fields => simp [Json.isObj] at h
  | null => rfl
  | bool b => rfl
  | num n => rfl
  | str s => rfl
  | arr xs => rfl

/-- When no top-level `metadata` field holds an object, the per-field
sanitizer map is the identity. -/
theorem map_sanitizeField_id (fields : List (String × Json))
    (h : ∀ f ∈ fields, f.1 = "metadata" → f.2.isObj = false) :
    fields.map sanitizeField = fields := by
  induction fields with
  | nil => rfl
  | cons f rest ih =>
      rw [List.map_cons, ih (fun g hg hm => h g (List.mem_cons_of_mem f hg) hm)]
      congr 1
      unfold sanitizeField
      by_cases hm : f.1 = "metadata"
      · rw [if_pos hm, stripMetadata_of_not_obj f.2 (h f (List.mem_cons_self f rest) hm)]
      · rw [if_neg hm]

/-- C10: `sanitize_resource` is total and conservative on degenerate
inputs: a non-object document is returned unchanged, and an object whose
`metadata` fields (if any) are not objects only loses its top-level
`status` entries. -/
theorem C10_sanitize_total (v : Json) (fields : List (String × Json)) :
    (v.isObj = false → sanitize_resource v = v) ∧
    ((∀ f ∈ fields, f.1 = "metadata" → f.2.isObj = false) →
      sanitize_resource (.obj fields)
        = .obj (fields.filter (fun f => f.1 ≠ "status"))) := by
  constructor
  · intro h
    cases v with
    | obj fields => simp [Json.isObj] at h
    | null => rfl
    | bool b => rfl
    | num n => rfl
    | str s => rfl
    | arr xs => rfl
  · intro h
    show Json.obj ((fields.map sanitizeField).filter (fun f => f.1 ≠ "status")) = _
    rw [map_sanitizeField_id fields h]

/-- C10 witness: a string document passes through untouched, and an object
with a string-valued `metadata` only loses `status`. -/
theorem C10_sanitize_total_witness :
    sanitize_resource (.str "x") = .str "x" ∧
    sanitize_resource (.obj [("metadata", .str "m"), ("status", .null), ("spec", .num 1)])
      = .obj [("metadata", .str "m"), ("spec", .num 1)] := by
  constructor
  · exact (C10_sanitize_total (.str "x") []).1 rfl
  · have h := (C10_sanitize_total (.str "x")
      [("metadata", .str "m"), ("status", .null), ("spec", .num 1)]).2 (by
        intro f hf hm
        simp only [List.mem_cons, List.not_mem_nil, or_false] at hf
        rcases hf with h1 | h1 | h1 <;> subst h1 <;> rfl)
    rw [h]
    rfl

mutual

/-- Reflexivity of `Json.beq`. -/
theorem Json.beq_refl : (v : Json) → Json.beq v v = true
  | .null => rfl
  | .bool b => by simp [Json.beq]
  | .num n => by simp [Json.beq]
  | .str s => by simp [Json.beq]
  | .arr xs => Json.beqList_refl xs
  | .obj fields => Json.beqFields_refl fields

/-- Reflexivity of `Json.beqList`. -/
theorem Json.beqList_refl : (l : List Json) → Json.beqList l l = true
  | [] => rfl
  | v :: rest => by
      show (Json.beq v v && Json.beqList rest rest) = true
      rw [Json.beq_refl v, Json.beqList_refl rest]
      rfl

/-- Reflexivity of `Json.beqFields`. -/
theorem Json.beqFields_refl : (l : List (String × Json)) → Json.beqFields l l = true
  | [] => rfl
  | f :: rest => by
      show ((f.1 == f.1) && Json.beq f.2 f.2 && Json.beqFields rest rest) = true
      rw [Json.beq_refl f.2, Json.beqFields_refl rest]
      simp

end

/-- Unfolding of `keysSubsetFields` to a per-field condition. -/
theorem keysSubsetFields_iff (a b : List (String × Json)) :
    keysSubsetFields a b = true ↔
      ∀ f ∈ a, ∃ g, b.find? (fun g => g.1 = f.1) = some g ∧ keysSubset f.2 g.2 = true := by
  induction a with
  | nil => simp [keysSubsetFields]
  | cons f rest ih =>
      show ((match (b.find? (fun g => g.1 = f.1)).map (fun g => g.2) with
          | some w => keysSubset f.2 w
          | none => false) && keysSubsetFields rest b) = true ↔ _
      rw [Bool.and_eq_true, ih]
      constructor
      · rintro ⟨h1, h2⟩ g hg
        rcases List.mem_cons.mp hg with heq | hmem
        · subst heq
          cases hfind : b.find? (fun p => p.1 = g.1) with
          | none => rw [hfind] at h1; simp at h1
          | some w =>
              rw [hfind] at h1
              exact ⟨w, rfl, h1⟩
        · exact h2 g hmem
      · intro h
        constructor
        · obtain ⟨g, hfind, hsub⟩ := h f (List.mem_cons_self f rest)
          rw [hfind]
          exact hsub
        · exact fun g hg => h g (List.mem_cons_of_mem f hg)

/-- In a field list with distinct keys, looking up the key of a member finds
that member. -/
theorem find?_key_eq_self_of_nodup (l : List (String × Json))
    (hnd : (l.map (fun f => f.1)).Nodup) :
    ∀ f ∈ l, l.find? (fun g => g.1 = f.1) = some f := by
  induction l with
  | nil => intro f hf; exact absurd hf (List.not_mem_nil f)
  | cons f0 rest ih =>
      intro f hf
      rw [List.map_cons, List.nodup_cons] at hnd
      rcases List.mem_cons.mp hf with rfl | hmem
      · rw [List.find?_cons_of_pos _ (by simp)]
      · have hne : f0.1 ≠ f.1 := by
          intro he
          exact hnd.1 (he ▸ List.mem_map_of_mem (fun g => g.1) hmem)
        rw [List.find?_cons_of_neg _ (by simpa using hne)]
        exact ih hnd.2 f hmem

/-- Every field value of a well-formed field list is well-formed. -/
theorem wfFields_mem (l : List (String × Json)) (h : Json.wfFields l = true) :
    ∀ f ∈ l, Json.wf f.2 = true := by
  induction l with
  | nil => intro f hf; exact absurd hf (List.not_mem_nil f)
  | cons f0 rest ih =>
      intro f hf
      have h' : Json.wf f0.2 = true ∧ Json.wfFields rest = true := by
        simpa [Json.wfFields] using h
      rcases List.mem_cons.mp hf with rfl | hmem
      · exact h'.1
      · exact ih h'.2 f hmem

mutual

/-- Reflexivity of `keysSubset` on well-formed documents. -/
theorem keysSubset_refl : (v : Json) → Json.wf v = true → keysSubset v v = true
  | .null, _ => rfl
  | .bool b, _ => by simp [keysSubset, Json.beq]
  | .num n, _ => by simp [keysSubset, Json.beq]
  | .str s, _ => by simp [keysSubset, Json.beq]
  | .arr xs, _ => Json.beqList_refl xs
  | .obj fields, h => by
      have h' : (fields.map (fun f => f.1)).Nodup ∧ Json.wfFields fields = true := by
        simpa [Json.wf] using h
      show keysSubsetFields fields fields = true
      exact keysSubsetFields_full fields fields h'.2
        (find?_key_eq_self_of_nodup fields h'.1)

/-- Helper for reflexivity: a field list whose members each look
themselves up in `full` is keys-included in `full`. -/
theorem keysSubsetFields_full : (l full : List (String × Json)) →
    Json.wfFields l = true →
    (∀ f ∈ l, full.find? (fun g => g.1 = f.1) = some f) →
    keysSubsetFields l full = true
  | [], _, _, _ => rfl
  | f :: rest, full, hwf, hfind => by
      have h' : Json.wf f.2 = true ∧ Json.wfFields rest = true := by
        simpa [Json.wfFields] using hwf
      show ((match (full.find? (fun g => g.1 = f.1)).map (fun g => g.2) with
          | some w => keysSubset f.2 w
          | none => false) && keysSubsetFields rest full) = true
      rw [hfind f (List.mem_cons_self f rest)]
      show (keysSubset f.2 f.2 && keysSubsetFields rest full) = true
      rw [keysSubset_refl f.2 h'.1,
        keysSubsetFields_full rest full h'.2
          (fun g hg => hfind g (List.mem_cons_of_mem f hg))]
      rfl

end

/-- A selection (by any key predicate) of a well-formed field list is
keys-included in it. -/
theorem keysSubsetFields_of_mem_sub (l m : List (String × Json))
    (hsub : ∀ f ∈ l, f ∈ m) (hnd : (m.map (fun f => f.1)).Nodup)
    (hwf : Json.wfFields m = true) : keysSubsetFields l m = true := by
  rw [keysSubsetFields_iff]
  intro f hf
  exact ⟨f, find?_key_eq_self_of_nodup m hnd f (hsub f hf),
    keysSubset_refl f.2 (wfFields_mem m hwf f (hsub f hf))⟩

/-- Stripping metadata never introduces a key. -/
theorem keysSubset_stripMetadata (v : Json) (h : Json.wf v = true) :
    keysSubset (stripMetadata v) v = true := by
  cases v with
  | obj m =>
      have h' : (m.map (fun f => f.1)).Nodup ∧ Json.wfFields m = true := by
        simpa [Json.wf] using h
      show keysSubsetFields
        (m.filter (fun f => ¬ removedMetadataFields.contains f.1)) m = true
      exact keysSubsetFields_of_mem_sub _ m (fun f hf => List.mem_of_mem_filter hf)
        h'.1 h'.2
  | null => exact keysSubset_refl _ h
  | bool b => exact keysSubset_refl _ h
  | num n => exact keysSubset_refl _ h
  | str s => exact keysSubset_refl _ h
  | arr xs => exact keysSubset_refl _ h

/-- Sanitization never introduces a key, at any depth, on a well-formed
document. -/
theorem keysSubset_sanitize (d : Json) (h : Json.wf d = true) :
    keysSubset (sanitize_resource d) d = true := by
  cases d with
  | obj fields =>
      have h' : (fields.map (fun f => f.1)).Nodup ∧ Json.wfFields fields = true := by
        simpa [Json.wf] using h
      show keysSubsetFields
        ((fields.map sanitizeField).filter (fun f => f.1 ≠ "status")) fields = true
      rw [keysSubsetFields_iff]
      intro f' hf'
      obtain ⟨f, hf, hsf⟩ := List.mem_map.mp (List.mem_of_mem_filter hf')
      refine ⟨f, ?_, ?_⟩
      · rw [← hsf, sanitizeField_fst]
        exact find?_key_eq_self_of_nodup fields h'.1 f hf
      · rw [← hsf]
        have hwf2 : Json.wf f.2 = true := wfFields_mem fields h'.2 f hf
        unfold sanitizeField
        by_cases hm : f.1 = "metadata"
        · rw [if_pos hm]
          exact keysSubset_stripMetadata f.2 hwf2
        · rw [if_neg hm]
          exact keysSubset_refl f.2 hwf2
  | null => exact keysSubset_refl _ h
  | bool b => exact keysSubset_refl _ h
  | num n => exact keysSubset_refl _ h
  | str s => exact keysSubset_refl _ h
  | arr xs => exact keysSubset_refl _ h

/-- Stripping metadata twice equals stripping it once. -/
theorem stripMetadata_idem (v : Json) :
    stripMetadata (stripMetadata v) = stripMetadata v := by
  cases v with
  | obj m =>
      show Json.obj (((m.filter (fun f => ¬ removedMetadataFields.contains f.1)).filter
        (fun f => ¬ removedMetadataFields.contains f.1))) = _
      rw [List.filter_filter]
      congr 1
      exact List.filter_congr (fun f _ => by rw [Bool.and_self])
  | null => rfl
  | bool b => rfl
  | num n => rfl
  | str s => rfl
  | arr xs => rfl

/-- The per-field sanitizer is idempotent. -/
theorem sanitizeField_idem (f : String × Json) :
    sanitizeField (sanitizeField f) = sanitizeField f := by
  by_cases hm : f.1 = "metadata"
  · simp [sanitizeField, hm, stripMetadata_idem]
  · simp [sanitizeField, hm]

/-- The per-field sanitizer map commutes with key-based filtering. -/
theorem map_sanitizeField_filter_key (l : List (String × Json))
    (q : String → Bool) :
    (l.filter (fun f => q f.1)).map sanitizeField
      = (l.map sanitizeField).filter (fun f => q f.1) := by
  induction l with
  | nil => rfl
  | cons f rest ih =>
      by_cases hq : q f.1
      · simp [List.filter_cons, sanitizeField_fst, hq, ih]
      · simp [List.filter_cons, sanitizeField_fst, hq, ih]

/-- Sanitizing twice equals sanitizing once. -/
theorem sanitize_resource_idem (d : Json) :
    sanitize_resource (sanitize_resource d) = sanitize_resource d := by
  cases d with
  | obj fields =>
      show Json.obj ((((fields.map sanitizeField).filter
          (fun f => f.1 ≠ "status")).map sanitizeField).filter
            (fun f => f.1 ≠ "status"))
        = Json.obj ((fields.map sanitizeField).filter (fun f => f.1 ≠ "status"))
      rw [map_sanitizeField_filter_key (fields.map sanitizeField)
        (fun key => (decide (key ≠ "status") : Bool)), List.map_map]
      rw [show List.map (sanitizeField ∘ sanitizeField) fields
          = List.map sanitizeField fields from
        List.map_congr_left (fun f _ => sanitizeField_idem f)]
      rw [List.filter_filter]
      congr 1
      exact List.filter_congr (fun f _ => by rw [Bool.and_self])
  | null => rfl
  | bool b => rfl
  | num n => rfl
  | str s => rfl
  | arr xs => rfl

/-- C6: sanitization is idempotent, and (on any document serde can
produce, i.e. without duplicate object keys) it never adds a field at any
nesting level. -/
theorem C6_sanitize_idempotent_no_new_fields (d : Json) :
    sanitize_resource (sanitize_resource d) = sanitize_resource d ∧
    (Json.wf d = true → keysSubset (sanitize_resource d) d = true) :=
  ⟨sanitize_resource_idem d, keysSubset_sanitize d⟩

/-- C6 witness: both parts evaluated on a concrete document. -/
theorem C6_sanitize_idempotent_no_new_fields_witness :
    sanitize_resource (sanitize_resource (.obj wFullDoc))
      = sanitize_resource (.obj wFullDoc) ∧
    keysSubset (sanitize_resource (.obj wFullDoc)) (.obj wFullDoc) = true :=
  ⟨(C6_sanitize_idempotent_no_new_fields (.obj wFullDoc)).1,
   (C6_sanitize_idempotent_no_new_fields (.obj wFullDoc)).2 (by decide)⟩

/-- Unfolding `countOf` over a cons cell. -/
theorem countOf_cons (p : String × Nat) (rest : List (String × Nat)) (k : String) :
    countOf (p :: rest) k = (if p.1 = k then p.2 else 0) + countOf rest k := by
  by_cases h : p.1 = k
  · simp [countOf, List.filter_cons, h]
  · simp [countOf, List.filter_cons, h]

/-- Bumping a key adds exactly to the total of that key. -/
theorem countOf_bumpCount (m : List (String × Nat)) (k : String) (c : Nat)
    (k' : String) :
    countOf (bumpCount m k c) k' = countOf m k' + (if k = k' then c else 0) := by
  induction m with
  | nil =>
      rw [bumpCount, countOf_cons]
      simp [countOf]
  | cons p rest ih =>
      rw [bumpCount]
      by_cases hp : p.1 = k
      · rw [if_pos hp, countOf_cons, countOf_cons]
        by_cases hk : p.1 = k'
        · rw [if_pos hk, if_pos hk, if_pos (hp ▸ hk)]
          omega
        · rw [if_neg hk, if_neg hk, if_neg (fun he => hk (hp.trans he))]
          omega
      · rw [if_neg hp, countOf_cons, countOf_cons, ih]
        omega

/-- Folding `bumpCount` over a stats list adds the per-key totals of that list. -/
theorem countOf_foldl_bumpCount (k : String) :
    ∀ (l : List (String × Nat)) (m0 : List (String × Nat)),
      countOf (l.foldl (fun m q => bumpCount m q.1 q.2) m0) k
        = countOf m0 k + countOf l k := by
  intro l
  induction l with
  | nil => intro m0; simp [countOf]
  | cons q rest ih =>
      intro m0
      rw [List.foldl_cons, ih, countOf_bumpCount, countOf_cons]
      by_cases h : q.1 = k
      · rw [if_pos h]
        omega
      · rw [if_neg h]
        omega

/-- Folding the stats of every namespace through `bumpCount` totals per key. -/
theorem countOf_foldl_ns (k : String) :
    ∀ (nss : List (String × List (String × Nat))) (m0 : List (String × Nat)),
      countOf (nss.foldl
          (fun m p => p.2.foldl (fun m q => bumpCount m q.1 q.2) m) m0) k
        = countOf m0 k + (nss.map (fun p => countOf p.2 k)).sum := by
  intro nss
  induction nss with
  | nil => intro m0; simp
  | cons p rest ih =>
      intro m0
      rw [List.foldl_cons, ih, countOf_foldl_bumpCount, List.map_cons, List.sum_cons]
      omega

/-- The namespaced-total fold is the sum of per-namespace sums. -/
theorem foldl_sumCounts (nss : List (String × List (String × Nat))) :
    ∀ t0 : Nat,
      nss.foldl (fun t p => t + sumCounts p.2) t0
        = t0 + (nss.map (fun p => sumCounts p.2)).sum := by
  induction nss with
  | nil => intro t0; simp
  | cons p rest ih =>
      intro t0
      rw [List.foldl_cons, ih, List.map_cons, List.sum_cons]
      omega

/-- For a valid format, `save_resource_type` counts exactly the items that
carry a `metadata.name` string. -/
theorem save_resource_type_count (format : String) (items : List Json)
    (hfmt : format = "json" ∨ format = "yaml" ∨ format = "both") :
    save_resource_type format items = .ok ((items.filter isNamed).length) := by
  unfold save_resource_type
  by_cases hi : items.isEmpty
  · rw [if_pos hi]
    rw [List.isEmpty_iff] at hi
    subst hi
    rfl
  · rw [if_neg hi]
    by_cases hn : (items.filter isNamed).isEmpty
    · rw [if_pos hn]
      rw [List.isEmpty_iff] at hn
      rw [hn]
      rfl
    · rw [if_neg hn, if_pos hfmt]

/-- C9 counterexample: one collected `Pod` instance without a
`metadata.name` is saved (and therefore summarized) as count 0, so the
summary reflects the saved instances, not the collected ones. -/
theorem C9_collected_counts_counterexample :
    save_resources_stats "yaml" [("Pod", [Json.obj []])] = .ok [("Pod", 0)] ∧
    countOf (create_collection_summary [("Pod", 0)] []).resource_type_counts "Pod" = 0 ∧
    ([Json.obj []] : List Json).length = 1 ∧
    (0 : Nat) ≠ 1 := by
  refine ⟨rfl, rfl, rfl, ?_⟩
  decide

/-- C9 amended: the grand totals and per-namespace totals of the summary are
consistent sums of its inputs, the per-kind grand total is the cluster
count plus the per-namespace counts, the aggregation is a pure function of
the stats, and each stats count is the number of saved instances: the
collected items carrying a `metadata.name` string (unnamed collected items
are skipped, so counts can undercount collected instances). -/
theorem C9_summary_aggregation (cluster_stats : List (String × Nat))
    (namespace_stats : List (String × List (String × Nat))) (k : String)
    (format : String) (items : List Json) :
    (create_collection_summary cluster_stats namespace_stats).total_resources
      = (create_collection_summary cluster_stats namespace_stats).total_cluster_resources
        + (create_collection_summary cluster_stats namespace_stats).total_namespaced_resources ∧
    (create_collection_summary cluster_stats namespace_stats).total_cluster_resources
      = sumCounts cluster_stats ∧
    (create_collection_summary cluster_stats namespace_stats).total_namespaced_resources
      = (namespace_stats.map (fun p => sumCounts p.2)).sum ∧
    (∀ d ∈ (create_collection_summary cluster_stats namespace_stats).namespace_details,
      d.2.1 = sumCounts d.2.2) ∧
    countOf (create_collection_summary cluster_stats namespace_stats).resource_type_counts k
      = countOf cluster_stats k + (namespace_stats.map (fun p => countOf p.2 k)).sum ∧
    create_collection_summary cluster_stats namespace_stats
      = create_collection_summary cluster_stats namespace_stats ∧
    ((format = "json" ∨ format = "yaml" ∨ format = "both") →
      save_resource_type format items = .ok ((items.filter isNamed).length)) := by
  refine ⟨rfl, rfl, ?_, ?_, ?_, rfl, save_resource_type_count format items⟩
  · show namespace_stats.foldl (fun t p => t + sumCounts p.2) 0 = _
    rw [foldl_sumCounts]
    omega
  · intro d hd
    show d.2.1 = sumCounts d.2.2
    rcases List.mem_map.mp hd with ⟨p, _, hp⟩
    rw [← hp]
  · show countOf (cluster_stats.foldl (fun m q => bumpCount m q.1 q.2)
        (namespace_stats.foldl
          (fun m p => p.2.foldl (fun m q => bumpCount m q.1 q.2) m) [])) k = _
    rw [countOf_foldl_bumpCount, countOf_foldl_ns]
    simp [countOf]
    omega

/-- C9 amended witness: the per-kind grand total and the save count
evaluated at concrete inputs. -/
theorem C9_summary_aggregation_witness :
    countOf (create_collection_summary [("Namespace", 2)]
        [("default", [("Pod", 3), ("Secret", 1)])]).resource_type_counts "Pod"
      = countOf [("Namespace", 2)] "Pod"
        + ([("default", [("Pod", 3), ("Secret", 1)])].map
            (fun p => countOf p.2 "Pod")).sum ∧
    save_resource_type "yaml" [wDoc, Json.obj []]
      = .ok (([wDoc, Json.obj []].filter isNamed).length) :=
  ⟨(C9_summary_aggregation [("Namespace", 2)]
      [("default", [("Pod", 3), ("Secret", 1)])] "Pod" "yaml" []).2.2.2.2.1,
   (C9_summary_aggregation [("Namespace", 2)]
      [("default", [("Pod", 3), ("Secret", 1)])] "Pod" "yaml"
      [wDoc, Json.obj []]).2.2.2.2.2.2 (Or.inr (Or.inl rfl))⟩

end Ketchup
